import Mathlib

/-!
# Verification of the tf2pickup queue matchmaking engine

Shallow embedding of `QueueService` (src/queue/services/queue-service.ts,
bundled in src/queue/controllers/queue-controller.ts) of the
tf2pickup-pl/server-legacy repository, together with proofs about the
queue state machine: the slot model, the `join`/`leave`/`ready`/`reset`
operations, the lifecycle transitions, the ready-up timeout and the map
selection.

Modelling conventions:
* `QueueSrv` is the mutable state of the `QueueService` singleton:
  the slot array, the lifecycle state, the selected map, the `timer`
  field, plus bookkeeping for `setTimeout` handles (`nextTimerId`,
  `pendingTimers`).  The source never calls `clearTimeout`, so a
  scheduled ready-up timeout stays in `pendingTimers` until it fires;
  `delete this.timer` only clears the `timer` field.
* Operations are pure functions returning `Except QueueError`; a thrown
  `Error` in the source is an `.error` result.  The deferred
  `setTimeout(() => this.updateState(), 0)` at the end of each mutating
  operation is run synchronously, following the serialized single-writer
  discipline of the engine.
* Socket events (`queue slot update`, `queue state update`, ...) and the
  match handoff (`gameService.create`) are modelled as an emitted
  `QueueEvent` list.
* External collaborators of `join` (the player directory lookup and the
  active-game check) are passed in as booleans.
-/

namespace TF2

/-- One class entry of the queue configuration: `{ name, count }`. -/
structure GameClassCfg where
  name : String
  count : Nat
deriving DecidableEq, Repr

/-- Model of `QueueConfig` from src/queue/models/queue-config. -/
structure QueueConfig where
  teamCount : Nat
  classes : List GameClassCfg
  readyUpTimeout : Nat
  maps : List String
deriving DecidableEq, Repr

/-- The queue lifecycle (`QueueState` string union in the source). -/
inductive QueueState
  | waiting
  | ready
  | launching
deriving DecidableEq, Repr

/-- Model of `QueueSlot`: `{ id, gameClass, playerId?, playerReady }`. -/
structure QueueSlot where
  id : Nat
  gameClass : String
  playerId : Option String := none
  playerReady : Bool := false
deriving DecidableEq, Repr

/-- Outbound effects of the engine: socket events and the match handoff. -/
inductive QueueEvent
  | slotsReset (slots : List QueueSlot)
  | mapUpdated (map : Option String)
  | slotUpdate (slot : QueueSlot)
  | stateUpdate (state : QueueState)
  | launchGame (slots : List QueueSlot) (map : Option String)
deriving DecidableEq, Repr

/-- The mutable fields of the `QueueService` instance. -/
structure QueueSrv where
  slots : List QueueSlot
  state : QueueState
  map : Option String
  timer : Option Nat
  nextTimerId : Nat
  pendingTimers : List Nat
deriving DecidableEq, Repr

/-- Typed operation errors (the `throw new Error(...)` messages). -/
inductive QueueError
  | noSuchPlayer
  | playerInActiveGame
  | noSuchSlot
  | slotTaken
  | cannotUnready
  | queueNotReady
  | playerNotQueued
deriving DecidableEq, Repr

deriving instance DecidableEq for Except

/-- Getter `requiredPlayerCount`: sum of class counts times `teamCount`. -/
def requiredPlayerCount (cfg : QueueConfig) : Nat :=
  (cfg.classes.foldl (fun prev curr => prev + curr.count) 0) * cfg.teamCount

/-- Getter `playerCount`: number of occupied slots. -/
def playerCount (q : QueueSrv) : Nat :=
  q.slots.foldl (fun prev curr => if curr.playerId.isSome then prev + 1 else prev) 0

/-- Getter `readyPlayerCount`: number of slots with `playerReady`. -/
def readyPlayerCount (q : QueueSrv) : Nat :=
  q.slots.foldl (fun prev curr => if curr.playerReady then prev + 1 else prev) 0

/-- The body of the `cleanupQueue` loop for a single slot: evict an
unready occupant, un-ready a ready one. -/
def cleanupSlot (s : QueueSlot) : QueueSlot :=
  if s.playerReady then { s with playerReady := false } else { s with playerId := none }

/-- Model of `cleanupQueue`: applies `cleanupSlot` to every slot and emits a
slot-update event for each. -/
def cleanupQueue (q : QueueSrv) : QueueSrv × List QueueEvent :=
  ({ q with slots := q.slots.map cleanupSlot },
   q.slots.map (fun s => QueueEvent.slotUpdate (cleanupSlot s)))

/-- Model of `onStateChange(oldState, newState)`.  Scheduling the ready-up timer
appends a fresh id to `pendingTimers` (the `setTimeout` call);
`delete this.timer` clears only the `timer` field and cancels nothing.
`launch()` emits the match-handoff effect. -/
def onStateChange (oldS newS : QueueState) (q : QueueSrv) : QueueSrv × List QueueEvent :=
  match oldS, newS with
  | .waiting, .ready =>
      ({ q with timer := some q.nextTimerId,
                nextTimerId := q.nextTimerId + 1,
                pendingTimers := q.pendingTimers ++ [q.nextTimerId] }, [])
  | .ready, .launching =>
      ({ q with timer := none }, [QueueEvent.launchGame q.slots q.map])
  | .launching, .waiting =>
      ({ q with timer := none }, [])
  | .ready, .waiting => cleanupQueue q
  | _, _ => (q, [])

/-- Model of `setState(state)`: no-op when the state is unchanged; otherwise runs
`onStateChange` with the old state, assigns the new state and emits the
state-update event. -/
def setState (newState : QueueState) (q : QueueSrv) : QueueSrv × List QueueEvent :=
  if newState = q.state then (q, [])
  else
    let r := onStateChange q.state newState q
    ({ r.1 with state := newState }, r.2 ++ [QueueEvent.stateUpdate newState])

/-- Model of `updateState`: the single-step transition re-check. -/
def updateState (cfg : QueueConfig) (q : QueueSrv) : QueueSrv × List QueueEvent :=
  match q.state with
  | .waiting =>
      if playerCount q = requiredPlayerCount cfg then setState .ready q else (q, [])
  | .ready =>
      if playerCount q = 0 then setState .waiting q
      else if readyPlayerCount q = requiredPlayerCount cfg then setState .launching q
      else (q, [])
  | .launching => setState .waiting q

/-- The `readyUpTimeout()` handler body. -/
def readyUpTimeout (cfg : QueueConfig) (q : QueueSrv) : QueueSrv × List QueueEvent :=
  if readyPlayerCount q = requiredPlayerCount cfg then setState .launching q
  else setState .waiting q

/-- The slot layout builder inside `resetSlots()`: for each class in
configured order emit `count * teamCount` slots with sequential ids. -/
def buildSlotsAux (teamCount : Nat) : List GameClassCfg → Nat → List QueueSlot
  | [], _ => []
  | c :: rest, lastId =>
      ((List.range (c.count * teamCount)).map fun i =>
        { id := lastId + i, gameClass := c.name, playerId := none, playerReady := false }) ++
      buildSlotsAux teamCount rest (lastId + c.count * teamCount)

/-- Model of `resetSlots`: rebuilds `this.slots` from the configuration. -/
def resetSlots (cfg : QueueConfig) (q : QueueSrv) : QueueSrv :=
  { q with slots := buildSlotsAux cfg.teamCount cfg.classes 0 }

/-- Model of `randomizeMap`: filters the current map out of the pool and indexes
it with `Math.floor(Math.random() * mapPool.length)`; `k` supplies the
random choice.  On an empty pool the source reads index 0 of an empty
array, i.e. `undefined` (`none` here); `k % length` covers exactly the
indices `Math.floor` can produce on a non-empty pool. -/
def randomizeMap (cfg : QueueConfig) (k : Nat) (q : QueueSrv) : QueueSrv :=
  let mapPool := cfg.maps.filter (fun m => decide (some m ≠ q.map))
  { q with map := mapPool.get? (k % mapPool.length) }

/-- Model of `reset`: rebuild slots, emit slots-reset, re-roll the map, emit
map-updated, then `updateState()`. -/
def reset (cfg : QueueConfig) (k : Nat) (q : QueueSrv) : QueueSrv × List QueueEvent :=
  let q1 := resetSlots cfg q
  let q2 := randomizeMap cfg k q1
  let r := updateState cfg q2
  (r.1, [QueueEvent.slotsReset q1.slots, QueueEvent.mapUpdated q2.map] ++ r.2)

/-- Replace the first element satisfying `cond` (the source mutates the
object returned by `Array.prototype.find` in place). -/
def replaceFirst {α : Type} (cond : α → Bool) (newElem : α) : List α → List α
  | [] => []
  | x :: rest => if cond x then newElem :: rest else x :: replaceFirst cond newElem rest

/-- The vacate step of `join`: clear any slot the joining player already
occupies and reset its ready flag. -/
def vacatePlayer (playerId : String) (s : QueueSlot) : QueueSlot :=
  if s.playerId = some playerId then { s with playerId := none, playerReady := false } else s

/-- Model of `join(slotId, playerId)`.  `playerExists` is the player-directory
lookup, `inActiveGame` the `gameService.activeGameForPlayer` check. -/
def join (cfg : QueueConfig) (playerExists inActiveGame : Bool) (slotId : Nat)
    (playerId : String) (q : QueueSrv) :
    Except QueueError (QueueSrv × List QueueEvent × QueueSlot) :=
  if ¬playerExists then .error .noSuchPlayer
  else if inActiveGame then .error .playerInActiveGame
  else
    match q.slots.find? (fun s => s.id == slotId) with
    | none => .error .noSuchSlot
    | some slot =>
      if slot.playerId.isSome then .error .slotTaken
      else
        let vacatedEvents := (q.slots.filter (fun s => s.playerId == some playerId)).map
          (fun s => QueueEvent.slotUpdate { s with playerId := none, playerReady := false })
        let slots1 := q.slots.map (vacatePlayer playerId)
        let newSlot : QueueSlot :=
          { slot with playerId := some playerId,
                      playerReady := if q.state = .ready then true else slot.playerReady }
        let slots2 := replaceFirst (fun s => s.id == slotId) newSlot slots1
        let r := updateState cfg { q with slots := slots2 }
        .ok (r.1, vacatedEvents ++ [QueueEvent.slotUpdate newSlot] ++ r.2, newSlot)

/-- Model of `leave(playerId)`: benign `null` when the player holds no slot. -/
def leave (cfg : QueueConfig) (playerId : String) (q : QueueSrv) :
    Except QueueError (QueueSrv × List QueueEvent × Option QueueSlot) :=
  match q.slots.find? (fun s => s.playerId == some playerId) with
  | some slot =>
      if slot.playerReady = true ∧ (q.state = .ready ∨ q.state = .launching) then
        .error .cannotUnready
      else
        let newSlot := { slot with playerId := none }
        let slots1 := replaceFirst (fun s => s.playerId == some playerId) newSlot q.slots
        let r := updateState cfg { q with slots := slots1 }
        .ok (r.1, [QueueEvent.slotUpdate newSlot] ++ r.2, some newSlot)
  | none => .ok (q, [], none)

/-- Model of `ready(playerId)`. -/
def ready (cfg : QueueConfig) (playerId : String) (q : QueueSrv) :
    Except QueueError (QueueSrv × List QueueEvent × QueueSlot) :=
  if q.state ≠ QueueState.ready then .error .queueNotReady
  else
    match q.slots.find? (fun s => s.playerId == some playerId) with
    | some slot =>
        let newSlot := { slot with playerReady := true }
        let slots1 := replaceFirst (fun s => s.playerId == some playerId) newSlot q.slots
        let r := updateState cfg { q with slots := slots1 }
        .ok (r.1, [QueueEvent.slotUpdate newSlot] ++ r.2, newSlot)
    | none => .error .playerNotQueued

/-- State after a `join` call as its caller observes it: the new state on
success, the untouched state when the call threw. -/
def runJoin (cfg : QueueConfig) (pe ig : Bool) (slotId : Nat) (playerId : String)
    (q : QueueSrv) : QueueSrv :=
  match join cfg pe ig slotId playerId q with
  | .ok r => r.1
  | .error _ => q

/-- State after a `leave` call (identity on a thrown error). -/
def runLeave (cfg : QueueConfig) (playerId : String) (q : QueueSrv) : QueueSrv :=
  match leave cfg playerId q with
  | .ok r => r.1
  | .error _ => q

/-- State after a `ready` call (identity on a thrown error). -/
def runReady (cfg : QueueConfig) (playerId : String) (q : QueueSrv) : QueueSrv :=
  match ready cfg playerId q with
  | .ok r => r.1
  | .error _ => q

/-- The field values of a fresh `QueueService` before the constructor
calls `reset()`. -/
def pristine : QueueSrv :=
  { slots := [], state := .waiting, map := none, timer := none,
    nextTimerId := 0, pendingTimers := [] }

/-- One serialized engine action: a successful (or benignly null)
operation, a reset, or a scheduled ready-up timeout firing.  Firing
removes the handle from `pendingTimers` and runs the handler body. -/
inductive Step (cfg : QueueConfig) : QueueSrv → QueueSrv → Prop
  | ofJoin (pe ig : Bool) (slotId : Nat) (playerId : String) (q q' : QueueSrv)
      (evs : List QueueEvent) (sl : QueueSlot)
      (h : join cfg pe ig slotId playerId q = .ok (q', evs, sl)) : Step cfg q q'
  | ofLeave (playerId : String) (q q' : QueueSrv) (evs : List QueueEvent)
      (sl : Option QueueSlot)
      (h : leave cfg playerId q = .ok (q', evs, sl)) : Step cfg q q'
  | ofReady (playerId : String) (q q' : QueueSrv) (evs : List QueueEvent) (sl : QueueSlot)
      (h : ready cfg playerId q = .ok (q', evs, sl)) : Step cfg q q'
  | ofReset (k : Nat) (q : QueueSrv) : Step cfg q (reset cfg k q).1
  | ofTimer (t : Nat) (q : QueueSrv) (h : t ∈ q.pendingTimers) :
      Step cfg q (readyUpTimeout cfg { q with pendingTimers := q.pendingTimers.erase t }).1

/-- States reachable from a fresh service (the constructor runs
`reset()`) by serialized operations and timer firings. -/
inductive Reachable (cfg : QueueConfig) : QueueSrv → Prop
  | base (k : Nat) : Reachable cfg (reset cfg k pristine).1
  | step {q q' : QueueSrv} : Reachable cfg q → Step cfg q q' → Reachable cfg q'

/-- Number of slots occupied by a given player. -/
def occCount (p : String) (slots : List QueueSlot) : Nat :=
  slots.countP (fun s => s.playerId == some p)

/-! ## List helper lemmas -/

theorem foldl_count_aux {α : Type} (p : α → Bool) (l : List α) (n : Nat) :
    l.foldl (fun prev curr => if p curr then prev + 1 else prev) n = n + l.countP p := by
  induction l generalizing n with
  | nil => simp
  | cons x xs ih =>
      simp only [List.foldl_cons, List.countP_cons, ih]
      by_cases h : p x <;> simp [h] <;> omega

theorem playerCount_eq_countP (q : QueueSrv) :
    playerCount q = q.slots.countP (fun s => s.playerId.isSome) := by
  simpa using foldl_count_aux (fun s : QueueSlot => s.playerId.isSome) q.slots 0

theorem readyPlayerCount_eq_countP (q : QueueSrv) :
    readyPlayerCount q = q.slots.countP (fun s => s.playerReady) := by
  simpa using foldl_count_aux (fun s : QueueSlot => s.playerReady) q.slots 0

theorem replaceFirst_length {α : Type} (cond : α → Bool) (n : α) (l : List α) :
    (replaceFirst cond n l).length = l.length := by
  induction l with
  | nil => rfl
  | cons x xs ih =>
      simp only [replaceFirst]
      split <;> simp [ih]

theorem mem_replaceFirst {α : Type} {cond : α → Bool} {n y : α} {l : List α}
    (h : y ∈ replaceFirst cond n l) : y = n ∨ y ∈ l := by
  induction l with
  | nil => simp [replaceFirst] at h
  | cons x xs ih =>
      simp only [replaceFirst] at h
      split at h
      · rcases List.mem_cons.mp h with h1 | h1
        · exact Or.inl h1
        · exact Or.inr (List.mem_cons_of_mem _ h1)
      · rcases List.mem_cons.mp h with h1 | h1
        · exact Or.inr (h1 ▸ List.mem_cons_self _ _)
        · rcases ih h1 with h2 | h2
          · exact Or.inl h2
          · exact Or.inr (List.mem_cons_of_mem _ h2)

theorem countP_replaceFirst_le {α : Type} (pr cond : α → Bool) (n : α) (l : List α) :
    (replaceFirst cond n l).countP pr ≤ l.countP pr + 1 := by
  induction l with
  | nil => simp [replaceFirst]
  | cons x xs ih =>
      simp only [replaceFirst]
      split
      · simp only [List.countP_cons]
        by_cases hn : pr n <;> by_cases hx : pr x <;> simp [hn, hx] <;> omega
      · simp only [List.countP_cons]
        omega

theorem countP_replaceFirst_le_of_neg {α : Type} (pr cond : α → Bool) {n : α}
    (hn : pr n = false) (l : List α) :
    (replaceFirst cond n l).countP pr ≤ l.countP pr := by
  induction l with
  | nil => simp [replaceFirst]
  | cons x xs ih =>
      simp only [replaceFirst]
      split
      · simp only [List.countP_cons, hn]
        by_cases hx : pr x <;> simp [hx]
      · simp only [List.countP_cons]
        omega

theorem countP_replaceFirst_cond_eq {α : Type} (pr : α → Bool) (n : α) {l : List α}
    (hn : pr n = true) : (replaceFirst pr n l).countP pr = l.countP pr := by
  induction l with
  | nil => simp [replaceFirst]
  | cons x xs ih =>
      simp only [replaceFirst]
      split
      · next hx => simp [List.countP_cons, hn, hx]
      · next hx => simp only [List.countP_cons, ih]

theorem countP_replaceFirst_cond_sub {α : Type} (pr : α → Bool) (n : α) {l : List α}
    (hn : pr n = false) : (replaceFirst pr n l).countP pr = l.countP pr - 1 := by
  induction l with
  | nil => simp [replaceFirst]
  | cons x xs ih =>
      simp only [replaceFirst]
      split
      · next hx => simp [List.countP_cons, hn, hx]
      · next hx =>
          simp only [Bool.not_eq_true] at hx
          simp [List.countP_cons, hx, ih]

theorem countP_map_le {α : Type} {pr : α → Bool} {f : α → α}
    (h : ∀ x, pr (f x) = true → pr x = true) (l : List α) :
    (l.map f).countP pr ≤ l.countP pr := by
  rw [List.countP_map]
  exact List.countP_mono_left (fun x _ hx => h x hx)

theorem map_replaceFirst_of_find? {α β : Type} {cond : α → Bool} {n x : α} {l : List α}
    (g : α → β) (h : l.find? cond = some x) (hg : g n = g x) :
    (replaceFirst cond n l).map g = l.map g := by
  induction l with
  | nil => simp at h
  | cons y ys ih =>
      by_cases hy : cond y
      · rw [List.find?_cons_of_pos _ hy] at h
        injection h with h
        subst h
        simp [replaceFirst, hy, hg]
      · rw [List.find?_cons_of_neg _ hy] at h
        simp only [replaceFirst, hy, if_neg]
        simp [ih h]

theorem newElem_mem_replaceFirst {α : Type} {cond : α → Bool} {n x : α} {l : List α}
    (h : l.find? cond = some x) : n ∈ replaceFirst cond n l := by
  induction l with
  | nil => simp at h
  | cons y ys ih =>
      by_cases hy : cond y
      · simp [replaceFirst, hy]
      · rw [List.find?_cons_of_neg _ hy] at h
        simp only [replaceFirst, hy, if_neg]
        exact List.mem_cons_of_mem _ (ih h)

theorem find?_map_comm {α : Type} {cond : α → Bool} {f : α → α}
    (hf : ∀ x, cond (f x) = cond x) (l : List α) :
    (l.map f).find? cond = (l.find? cond).map f := by
  induction l with
  | nil => simp
  | cons y ys ih =>
      by_cases hy : cond y
      · rw [List.map_cons, List.find?_cons_of_pos _ (by rw [hf]; exact hy),
            List.find?_cons_of_pos _ hy]
        rfl
      · rw [List.map_cons, List.find?_cons_of_neg _ (by rw [hf]; exact hy),
            List.find?_cons_of_neg _ hy, ih]

/-! ## Slot layout builder lemmas -/

theorem foldl_add_counts (l : List GameClassCfg) (n : Nat) :
    l.foldl (fun prev curr => prev + curr.count) n = n + (l.map (fun c => c.count)).sum := by
  induction l generalizing n with
  | nil => simp
  | cons c cs ih =>
      simp only [List.foldl_cons, List.map_cons, List.sum_cons, ih]
      omega

theorem requiredPlayerCount_eq (cfg : QueueConfig) :
    requiredPlayerCount cfg = (cfg.classes.map (fun c => c.count)).sum * cfg.teamCount := by
  simp [requiredPlayerCount, foldl_add_counts]

theorem buildSlotsAux_length (tc : Nat) (cls : List GameClassCfg) (i : Nat) :
    (buildSlotsAux tc cls i).length = (cls.map (fun c => c.count)).sum * tc := by
  induction cls generalizing i with
  | nil => simp [buildSlotsAux]
  | cons c cs ih => simp [buildSlotsAux, ih, Nat.add_mul]

theorem buildSlotsAux_flags (tc : Nat) (cls : List GameClassCfg) (i : Nat) :
    ∀ s ∈ buildSlotsAux tc cls i, s.playerId = none ∧ s.playerReady = false := by
  induction cls generalizing i with
  | nil => simp [buildSlotsAux]
  | cons c cs ih =>
      intro s hs
      simp only [buildSlotsAux, List.mem_append, List.mem_map, List.mem_range] at hs
      rcases hs with ⟨j, _, rfl⟩ | hs
      · exact ⟨rfl, rfl⟩
      · exact ih _ s hs

theorem buildSlotsAux_ids (tc : Nat) (cls : List GameClassCfg) (i : Nat) :
    (buildSlotsAux tc cls i).map (fun s => s.id) =
      List.range' i ((cls.map (fun c => c.count)).sum * tc) := by
  induction cls generalizing i with
  | nil => simp [buildSlotsAux]
  | cons c cs ih =>
      simp only [buildSlotsAux, List.map_append, List.map_map, ih]
      have h1 : ((fun s : QueueSlot => s.id) ∘ fun j =>
          ({ id := i + j, gameClass := c.name, playerId := none, playerReady := false } :
            QueueSlot)) = fun j => i + j := rfl
      rw [h1, show (fun j => i + j) = (i + ·) from rfl, ← List.range'_eq_map_range,
        List.range'_append_1]
      congr 1
      simp [Nat.add_mul, Nat.add_comm]

theorem buildSlotsAux_classes (tc : Nat) (cls : List GameClassCfg) (i : Nat) :
    (buildSlotsAux tc cls i).map (fun s => s.gameClass) =
      cls.bind (fun c => List.replicate (c.count * tc) c.name) := by
  induction cls generalizing i with
  | nil => simp [buildSlotsAux]
  | cons c cs ih =>
      simp only [buildSlotsAux, List.map_append, List.map_map, List.cons_bind, ih]
      congr 1
      have h1 : ((fun s : QueueSlot => s.gameClass) ∘ fun j =>
          ({ id := i + j, gameClass := c.name, playerId := none, playerReady := false } :
            QueueSlot)) = fun _ => c.name := rfl
      rw [h1, List.map_const']
      simp

/-! ## The state invariant -/

/-- The inductive invariant over the slot list and lifecycle:
occupant uniqueness, ready implies occupied, launching implies fully
confirmed, waiting implies no ready flags, fixed slot count, contiguous
slot ids. -/
structure SInv (cfg : QueueConfig) (slots : List QueueSlot) (st : QueueState) : Prop where
  uniq : ∀ p : String, occCount p slots ≤ 1
  readyOcc : ∀ s ∈ slots, s.playerReady = true → s.playerId.isSome = true
  launchAll : st = QueueState.launching →
    ∀ s ∈ slots, s.playerId.isSome = true ∧ s.playerReady = true
  waitNoReady : st = QueueState.waiting → ∀ s ∈ slots, s.playerReady = false
  len : slots.length = requiredPlayerCount cfg
  ids : slots.map (fun s => s.id) = List.range (requiredPlayerCount cfg)

/-- The invariant of a `QueueService` state. -/
def Inv (cfg : QueueConfig) (q : QueueSrv) : Prop := SInv cfg q.slots q.state

theorem cleanupSlot_id (s : QueueSlot) : (cleanupSlot s).id = s.id := by
  unfold cleanupSlot
  split <;> rfl

theorem cleanupSlot_ready (s : QueueSlot) : (cleanupSlot s).playerReady = false := by
  unfold cleanupSlot
  split
  · rfl
  · next h => simpa using h

theorem cleanupSlot_pid {s : QueueSlot} {p : String} (h : (cleanupSlot s).playerId = some p) :
    s.playerId = some p := by
  unfold cleanupSlot at h
  split at h
  · exact h
  · simp at h

theorem sinv_cleanup {cfg : QueueConfig} {slots : List QueueSlot} {st : QueueState}
    (h : SInv cfg slots st) : SInv cfg (slots.map cleanupSlot) QueueState.waiting := by
  refine ⟨?_, ?_, ?_, ?_, ?_, ?_⟩
  · intro p
    refine le_trans (countP_map_le ?_ slots) (h.uniq p)
    intro x hx
    simp only [beq_iff_eq] at hx ⊢
    exact cleanupSlot_pid hx
  · intro s hs hr
    rcases List.mem_map.mp hs with ⟨x, _, rfl⟩
    rw [cleanupSlot_ready] at hr
    cases hr
  · intro hl
    exact QueueState.noConfusion hl
  · intro _ s hs
    rcases List.mem_map.mp hs with ⟨x, _, rfl⟩
    exact cleanupSlot_ready x
  · rw [List.length_map]
    exact h.len
  · rw [List.map_map]
    have hc : ((fun s : QueueSlot => s.id) ∘ cleanupSlot) = fun s : QueueSlot => s.id :=
      funext fun s => cleanupSlot_id s
    rw [hc]
    exact h.ids

theorem sinv_retarget {cfg : QueueConfig} {slots : List QueueSlot} {st st2 : QueueState}
    (h : SInv cfg slots st)
    (hl : st2 = QueueState.launching → st = QueueState.launching)
    (hw : st2 = QueueState.waiting → st = QueueState.waiting) :
    SInv cfg slots st2 :=
  ⟨h.uniq, h.readyOcc, fun he => h.launchAll (hl he), fun he => h.waitNoReady (hw he),
   h.len, h.ids⟩

theorem sinv_to_launching {cfg : QueueConfig} {slots : List QueueSlot} {st : QueueState}
    (h : SInv cfg slots st)
    (hrc : slots.countP (fun s => s.playerReady) = requiredPlayerCount cfg) :
    SInv cfg slots QueueState.launching := by
  have hall : ∀ s ∈ slots, s.playerReady = true := by
    rw [← List.countP_eq_length]
    rw [hrc, h.len]
  refine ⟨h.uniq, h.readyOcc, ?_, ?_, h.len, h.ids⟩
  · intro _ s hs
    exact ⟨h.readyOcc s hs (hall s hs), hall s hs⟩
  · intro hw
    exact QueueState.noConfusion hw

/-! ## Invariant preservation by the transition re-check -/

theorem setState_eq_of_ne {st : QueueState} {q : QueueSrv} (h : ¬st = q.state) :
    setState st q = ({ (onStateChange q.state st q).1 with state := st },
                     (onStateChange q.state st q).2 ++ [QueueEvent.stateUpdate st]) := by
  unfold setState
  rw [if_neg h]

theorem setState_eq_of_eq {st : QueueState} {q : QueueSrv} (h : st = q.state) :
    setState st q = (q, []) := by
  unfold setState
  rw [if_pos h]

theorem updateState_waiting {cfg : QueueConfig} {q : QueueSrv}
    (h : q.state = QueueState.waiting) :
    updateState cfg q =
      if playerCount q = requiredPlayerCount cfg then setState .ready q else (q, []) := by
  unfold updateState
  rw [h]

theorem updateState_ready {cfg : QueueConfig} {q : QueueSrv}
    (h : q.state = QueueState.ready) :
    updateState cfg q =
      if playerCount q = 0 then setState .waiting q
      else if readyPlayerCount q = requiredPlayerCount cfg then setState .launching q
      else (q, []) := by
  unfold updateState
  rw [h]

theorem updateState_launching {cfg : QueueConfig} {q : QueueSrv}
    (h : q.state = QueueState.launching) :
    updateState cfg q = setState .waiting q := by
  unfold updateState
  rw [h]

theorem inv_updateState {cfg : QueueConfig} {q : QueueSrv}
    (hne : q.state ≠ QueueState.launching) (h : Inv cfg q) :
    Inv cfg (updateState cfg q).1 := by
  unfold Inv at h ⊢
  cases hq : q.state with
  | waiting =>
      rw [updateState_waiting hq]
      by_cases hpc : playerCount q = requiredPlayerCount cfg
      · rw [if_pos hpc, setState_eq_of_ne (by rw [hq]; exact fun hh => QueueState.noConfusion hh),
          hq]
        show SInv cfg q.slots QueueState.ready
        exact sinv_retarget (hq ▸ h) (fun hh => QueueState.noConfusion hh)
          (fun hh => QueueState.noConfusion hh)
      · rw [if_neg hpc]
        exact h
  | ready =>
      rw [updateState_ready hq]
      by_cases hpc : playerCount q = 0
      · rw [if_pos hpc, setState_eq_of_ne (by rw [hq]; exact fun hh => QueueState.noConfusion hh),
          hq]
        show SInv cfg (q.slots.map cleanupSlot) QueueState.waiting
        exact sinv_cleanup (hq ▸ h)
      · by_cases hrc : readyPlayerCount q = requiredPlayerCount cfg
        · rw [if_neg hpc, if_pos hrc,
            setState_eq_of_ne (by rw [hq]; exact fun hh => QueueState.noConfusion hh), hq]
          show SInv cfg q.slots QueueState.launching
          refine sinv_to_launching (hq ▸ h) ?_
          rw [← readyPlayerCount_eq_countP]
          exact hrc
        · rw [if_neg hpc, if_neg hrc]
          exact h
  | launching => exact absurd hq hne

theorem inv_readyUpTimeout {cfg : QueueConfig} {q : QueueSrv} (h : Inv cfg q) :
    Inv cfg (readyUpTimeout cfg q).1 := by
  unfold Inv at h ⊢
  unfold readyUpTimeout
  by_cases hrc : readyPlayerCount q = requiredPlayerCount cfg
  · rw [if_pos hrc]
    cases hq : q.state with
    | launching =>
        rw [setState_eq_of_eq (by rw [hq])]
        exact h
    | waiting =>
        rw [setState_eq_of_ne (by rw [hq]; exact fun hh => QueueState.noConfusion hh), hq]
        show SInv cfg q.slots QueueState.launching
        refine sinv_to_launching (hq ▸ h) ?_
        rw [← readyPlayerCount_eq_countP]
        exact hrc
    | ready =>
        rw [setState_eq_of_ne (by rw [hq]; exact fun hh => QueueState.noConfusion hh), hq]
        show SInv cfg q.slots QueueState.launching
        refine sinv_to_launching (hq ▸ h) ?_
        rw [← readyPlayerCount_eq_countP]
        exact hrc
  · rw [if_neg hrc]
    cases hq : q.state with
    | waiting =>
        rw [setState_eq_of_eq (by rw [hq])]
        exact h
    | ready =>
        rw [setState_eq_of_ne (by rw [hq]; exact fun hh => QueueState.noConfusion hh), hq]
        show SInv cfg (q.slots.map cleanupSlot) QueueState.waiting
        exact sinv_cleanup (hq ▸ h)
    | launching =>
        exfalso
        apply hrc
        rw [readyPlayerCount_eq_countP]
        have hall : ∀ s ∈ q.slots, (fun s : QueueSlot => s.playerReady) s = true :=
          fun s hs => ((hq ▸ h).launchAll rfl s hs).2
        rw [List.countP_eq_length.mpr hall]
        exact h.len

/-! ## Invariant establishment by reset -/

theorem sinv_fresh (cfg : QueueConfig) (st : QueueState) (hst : st ≠ QueueState.launching) :
    SInv cfg (buildSlotsAux cfg.teamCount cfg.classes 0) st := by
  have hflags := buildSlotsAux_flags cfg.teamCount cfg.classes 0
  refine ⟨?_, ?_, ?_, ?_, ?_, ?_⟩
  · intro p
    have hz : occCount p (buildSlotsAux cfg.teamCount cfg.classes 0) = 0 := by
      apply List.countP_eq_zero.mpr
      intro s hs
      simp [(hflags s hs).1]
    rw [hz]
    omega
  · intro s hs hr
    rw [(hflags s hs).2] at hr
    cases hr
  · intro hl
    exact absurd hl hst
  · intro _ s hs
    exact (hflags s hs).2
  · rw [buildSlotsAux_length, requiredPlayerCount_eq]
  · rw [buildSlotsAux_ids, requiredPlayerCount_eq, List.range_eq_range']

theorem playerCount_fresh (cfg : QueueConfig) (k : Nat) (q : QueueSrv) :
    playerCount (randomizeMap cfg k (resetSlots cfg q)) = 0 := by
  rw [playerCount_eq_countP]
  apply List.countP_eq_zero.mpr
  intro s hs
  have hs2 : s ∈ buildSlotsAux cfg.teamCount cfg.classes 0 := hs
  simp [(buildSlotsAux_flags cfg.teamCount cfg.classes 0 s hs2).1]

theorem inv_reset (cfg : QueueConfig) (k : Nat) (q : QueueSrv) :
    Inv cfg (reset cfg k q).1 := by
  unfold Inv reset
  show SInv cfg (updateState cfg (randomizeMap cfg k (resetSlots cfg q))).1.slots
    (updateState cfg (randomizeMap cfg k (resetSlots cfg q))).1.state
  have hslots : (randomizeMap cfg k (resetSlots cfg q)).slots =
      buildSlotsAux cfg.teamCount cfg.classes 0 := rfl
  have hstate : (randomizeMap cfg k (resetSlots cfg q)).state = q.state := rfl
  cases hq : q.state with
  | waiting =>
      rw [updateState_waiting (by rw [hstate, hq])]
      by_cases hpc : playerCount (randomizeMap cfg k (resetSlots cfg q)) =
          requiredPlayerCount cfg
      · rw [if_pos hpc,
          setState_eq_of_ne (by rw [hstate, hq]; exact fun hh => QueueState.noConfusion hh),
          hstate, hq]
        show SInv cfg (buildSlotsAux cfg.teamCount cfg.classes 0) QueueState.ready
        exact sinv_fresh cfg _ (fun hh => QueueState.noConfusion hh)
      · rw [if_neg hpc]
        show SInv cfg (buildSlotsAux cfg.teamCount cfg.classes 0) q.state
        rw [hq]
        exact sinv_fresh cfg _ (fun hh => QueueState.noConfusion hh)
  | ready =>
      rw [updateState_ready (by rw [hstate, hq]),
        if_pos (playerCount_fresh cfg k q),
        setState_eq_of_ne (by rw [hstate, hq]; exact fun hh => QueueState.noConfusion hh),
        hstate, hq]
      show SInv cfg ((buildSlotsAux cfg.teamCount cfg.classes 0).map cleanupSlot)
        QueueState.waiting
      exact sinv_cleanup (sinv_fresh cfg QueueState.ready (fun hh => QueueState.noConfusion hh))
  | launching =>
      rw [updateState_launching (by rw [hstate, hq]),
        setState_eq_of_ne (by rw [hstate, hq]; exact fun hh => QueueState.noConfusion hh),
        hstate, hq]
      show SInv cfg (buildSlotsAux cfg.teamCount cfg.classes 0) QueueState.waiting
      exact sinv_fresh cfg _ (fun hh => QueueState.noConfusion hh)

/-! ## Invariant preservation by the operations -/

theorem join_ok_inv {cfg : QueueConfig} {pe ig : Bool} {sid : Nat} {p : String}
    {q q' : QueueSrv} {evs : List QueueEvent} {ns : QueueSlot}
    (h : join cfg pe ig sid p q = .ok (q', evs, ns)) :
    ∃ slot, q.slots.find? (fun s => s.id == sid) = some slot ∧ slot.playerId = none ∧
      ns = { slot with
             playerId := some p,
             playerReady := if q.state = QueueState.ready then true else slot.playerReady } ∧
      evs = (q.slots.filter (fun s => s.playerId == some p)).map
              (fun s => QueueEvent.slotUpdate { s with playerId := none, playerReady := false })
            ++ [QueueEvent.slotUpdate ns]
            ++ (updateState cfg
                { q with slots := replaceFirst (fun s => s.id == sid) ns
                                    (q.slots.map (vacatePlayer p)) }).2 ∧
      q' = (updateState cfg
        { q with slots := replaceFirst (fun s => s.id == sid) ns
                            (q.slots.map (vacatePlayer p)) }).1 := by
  unfold join at h
  split at h
  · exact absurd h (by simp)
  · split at h
    · exact absurd h (by simp)
    · split at h
      · exact absurd h (by simp)
      · next slot hfind =>
          split at h
          · exact absurd h (by simp)
          · next hocc =>
              simp only [Except.ok.injEq, Prod.mk.injEq] at h
              obtain ⟨hq', hevs, hns⟩ := h
              refine ⟨slot, hfind, Option.not_isSome_iff_eq_none.mp hocc, hns.symm, ?_, ?_⟩
              · rw [← hns]
                exact hevs.symm
              · rw [← hq', ← hns]

theorem vacatePlayer_id (p : String) (s : QueueSlot) : (vacatePlayer p s).id = s.id := by
  unfold vacatePlayer
  split <;> rfl

theorem inv_join {cfg : QueueConfig} {pe ig : Bool} {sid : Nat} {p : String}
    {q q' : QueueSrv} {evs : List QueueEvent} {ns : QueueSlot} (h : Inv cfg q)
    (hok : join cfg pe ig sid p q = .ok (q', evs, ns)) : Inv cfg q' := by
  obtain ⟨slot, hfind, hvac, hns, hevs, hq'⟩ := join_ok_inv hok
  have hmem : slot ∈ q.slots := List.mem_of_find?_eq_some hfind
  have hnsid : ns.id = slot.id := by rw [hns]
  have hnspid : ns.playerId = some p := by rw [hns]
  have hnl : q.state ≠ QueueState.launching := by
    intro hl
    have hocc := (h.launchAll hl slot hmem).1
    rw [hvac] at hocc
    cases hocc
  subst hq'
  apply inv_updateState
  · exact hnl
  unfold Inv
  show SInv cfg (replaceFirst (fun s => s.id == sid) ns (q.slots.map (vacatePlayer p))) q.state
  refine ⟨?_, ?_, ?_, ?_, ?_, ?_⟩
  · intro r
    by_cases hrp : r = p
    · subst hrp
      have h0 : occCount r (q.slots.map (vacatePlayer r)) = 0 := by
        apply List.countP_eq_zero.mpr
        intro s hs
        rcases List.mem_map.mp hs with ⟨x, _, rfl⟩
        unfold vacatePlayer
        split
        · simp
        · next hne => simpa using hne
      have hle := countP_replaceFirst_le (fun s => s.playerId == some r)
        (fun s => s.id == sid) ns (q.slots.map (vacatePlayer r))
      unfold occCount at h0 ⊢
      omega
    · have hnsr : (fun s : QueueSlot => s.playerId == some r) ns = false := by
        simp [hnspid]
        exact fun hh => hrp hh.symm
      refine le_trans (countP_replaceFirst_le_of_neg
        (fun s : QueueSlot => s.playerId == some r) _ hnsr _) (le_trans ?_ (h.uniq r))
      apply countP_map_le
      intro x hx
      unfold vacatePlayer at hx
      split at hx
      · simp at hx
      · exact hx
  · intro s hs hr
    rcases mem_replaceFirst hs with rfl | hs1
    · simp [hnspid]
    · rcases List.mem_map.mp hs1 with ⟨x, hx, rfl⟩
      unfold vacatePlayer at hr ⊢
      by_cases hxp : x.playerId = some p
      · rw [if_pos hxp] at hr
        cases hr
      · rw [if_neg hxp] at hr ⊢
        exact h.readyOcc x hx hr
  · intro hl
    exact absurd hl hnl
  · intro hw s hs
    rcases mem_replaceFirst hs with rfl | hs1
    · rw [hns]
      show (if q.state = QueueState.ready then true else slot.playerReady) = false
      rw [if_neg (by rw [hw]; exact fun hh => QueueState.noConfusion hh)]
      exact h.waitNoReady hw slot hmem
    · rcases List.mem_map.mp hs1 with ⟨x, hx, rfl⟩
      unfold vacatePlayer
      split
      · rfl
      · exact h.waitNoReady hw x hx
  · rw [replaceFirst_length, List.length_map]
    exact h.len
  · have hf : ∀ x : QueueSlot,
        ((vacatePlayer p x).id == sid) = (x.id == sid) := by
      intro x
      rw [vacatePlayer_id]
    have hfind1 : (q.slots.map (vacatePlayer p)).find? (fun s => s.id == sid) =
        some (vacatePlayer p slot) := by
      rw [find?_map_comm hf, hfind]
      rfl
    rw [map_replaceFirst_of_find? (fun s : QueueSlot => s.id) hfind1
      (by show ns.id = (vacatePlayer p slot).id; rw [hnsid, vacatePlayer_id])]
    rw [List.map_map]
    have hc : ((fun s : QueueSlot => s.id) ∘ vacatePlayer p) = fun s : QueueSlot => s.id :=
      funext fun s => vacatePlayer_id p s
    rw [hc]
    exact h.ids

theorem leave_ok_inv {cfg : QueueConfig} {p : String} {q q' : QueueSrv}
    {evs : List QueueEvent} {osl : Option QueueSlot}
    (h : leave cfg p q = .ok (q', evs, osl)) :
    (q' = q ∧ evs = [] ∧ osl = none ∧
      q.slots.find? (fun s => s.playerId == some p) = none) ∨
    ∃ slot, q.slots.find? (fun s => s.playerId == some p) = some slot ∧
      ¬(slot.playerReady = true ∧
        (q.state = QueueState.ready ∨ q.state = QueueState.launching)) ∧
      osl = some { slot with playerId := none } ∧
      q' = (updateState cfg
        { q with slots := replaceFirst (fun s => s.playerId == some p)
                            { slot with playerId := none } q.slots }).1 := by
  unfold leave at h
  split at h
  · next slot hfind =>
      split at h
      · exact absurd h (by simp)
      · next hguard =>
          simp only [Except.ok.injEq, Prod.mk.injEq] at h
          obtain ⟨hq', hevs, hosl⟩ := h
          exact Or.inr ⟨slot, hfind, hguard, hosl.symm, hq'.symm⟩
  · next hfind =>
      simp only [Except.ok.injEq, Prod.mk.injEq] at h
      obtain ⟨hq', hevs, hosl⟩ := h
      exact Or.inl ⟨hq'.symm, hevs.symm, hosl.symm, hfind⟩

theorem inv_leave {cfg : QueueConfig} {p : String} {q q' : QueueSrv}
    {evs : List QueueEvent} {osl : Option QueueSlot} (h : Inv cfg q)
    (hok : leave cfg p q = .ok (q', evs, osl)) : Inv cfg q' := by
  rcases leave_ok_inv hok with ⟨rfl, _, _, _⟩ | ⟨slot, hfind, hguard, hosl, hq'⟩
  · exact h
  · have hmem : slot ∈ q.slots := List.mem_of_find?_eq_some hfind
    have hnl : q.state ≠ QueueState.launching := by
      intro hl
      exact hguard ⟨(h.launchAll hl slot hmem).2, Or.inr hl⟩
    have hflag : slot.playerReady = true → q.state = QueueState.waiting := by
      intro hfl
      cases hst : q.state with
      | waiting => rfl
      | ready => exact absurd ⟨hfl, Or.inl hst⟩ hguard
      | launching => exact absurd ⟨hfl, Or.inr hst⟩ hguard
    subst hq'
    apply inv_updateState
    · exact hnl
    unfold Inv
    show SInv cfg (replaceFirst (fun s => s.playerId == some p)
      { slot with playerId := none } q.slots) q.state
    refine ⟨?_, ?_, ?_, ?_, ?_, ?_⟩
    · intro r
      refine le_trans (countP_replaceFirst_le_of_neg
        (fun s : QueueSlot => s.playerId == some r) _ (by simp) _) (h.uniq r)
    · intro s hs hr
      rcases mem_replaceFirst hs with rfl | hs1
      · have hr2 : slot.playerReady = true := hr
        have hfalse := h.waitNoReady (hflag hr2) slot hmem
        rw [hfalse] at hr2
        cases hr2
      · exact h.readyOcc s hs1 hr
    · intro hl
      exact absurd hl hnl
    · intro hw s hs
      rcases mem_replaceFirst hs with rfl | hs1
      · show slot.playerReady = false
        exact h.waitNoReady hw slot hmem
      · exact h.waitNoReady hw s hs1
    · rw [replaceFirst_length]
      exact h.len
    · rw [map_replaceFirst_of_find? (n := { slot with playerId := none })
        (fun s : QueueSlot => s.id) hfind rfl]
      exact h.ids

theorem ready_ok_inv {cfg : QueueConfig} {p : String} {q q' : QueueSrv}
    {evs : List QueueEvent} {ns : QueueSlot}
    (h : ready cfg p q = .ok (q', evs, ns)) :
    q.state = QueueState.ready ∧
    ∃ slot, q.slots.find? (fun s => s.playerId == some p) = some slot ∧
      ns = { slot with playerReady := true } ∧
      q' = (updateState cfg
        { q with slots := replaceFirst (fun s => s.playerId == some p)
                            ns q.slots }).1 := by
  unfold ready at h
  split at h
  · exact absurd h (by simp)
  · next hst =>
      split at h
      · next slot hfind =>
          simp only [Except.ok.injEq, Prod.mk.injEq] at h
          obtain ⟨hq', hevs, hns⟩ := h
          refine ⟨not_not.mp hst, slot, hfind, hns.symm, ?_⟩
          rw [← hq', ← hns]
      · exact absurd h (by simp)

theorem inv_ready {cfg : QueueConfig} {p : String} {q q' : QueueSrv}
    {evs : List QueueEvent} {ns : QueueSlot} (h : Inv cfg q)
    (hok : ready cfg p q = .ok (q', evs, ns)) : Inv cfg q' := by
  obtain ⟨hst, slot, hfind, hns, hq'⟩ := ready_ok_inv hok
  have hmem : slot ∈ q.slots := List.mem_of_find?_eq_some hfind
  have hpid : slot.playerId = some p := by simpa using List.find?_some hfind
  subst hq'
  subst hns
  apply inv_updateState
  · intro hl
    rw [hst] at hl
    exact QueueState.noConfusion hl
  unfold Inv
  show SInv cfg (replaceFirst (fun s => s.playerId == some p)
    { slot with playerReady := true } q.slots) q.state
  refine ⟨?_, ?_, ?_, ?_, ?_, ?_⟩
  · intro r
    by_cases hrp : r = p
    · subst hrp
      have hpr : (fun s : QueueSlot => s.playerId == some r) { slot with playerReady := true }
          = true := by
        show (slot.playerId == some r) = true
        simp [hpid]
      show occCount r (replaceFirst (fun s : QueueSlot => s.playerId == some r)
        { slot with playerReady := true } q.slots) ≤ 1
      unfold occCount
      rw [countP_replaceFirst_cond_eq (fun s : QueueSlot => s.playerId == some r)
        { slot with playerReady := true } hpr]
      exact h.uniq r
    · refine le_trans (countP_replaceFirst_le_of_neg
        (fun s : QueueSlot => s.playerId == some r) _ ?_ _) (h.uniq r)
      show (slot.playerId == some r) = false
      simp [hpid]
      exact fun hh => hrp hh.symm
  · intro s hs hr
    rcases mem_replaceFirst hs with rfl | hs1
    · show slot.playerId.isSome = true
      rw [hpid]
      rfl
    · exact h.readyOcc s hs1 hr
  · intro hl
    rw [hst] at hl
    exact QueueState.noConfusion hl
  · intro hw
    rw [hst] at hw
    exact QueueState.noConfusion hw
  · rw [replaceFirst_length]
    exact h.len
  · rw [map_replaceFirst_of_find? (n := { slot with playerReady := true })
      (fun s : QueueSlot => s.id) hfind rfl]
    exact h.ids

/-! ## The reachability invariant -/

theorem inv_step {cfg : QueueConfig} {q q' : QueueSrv} (h : Inv cfg q)
    (hs : Step cfg q q') : Inv cfg q' := by
  cases hs with
  | ofJoin pe ig sid p q q' evs sl hok => exact inv_join h hok
  | ofLeave p q q' evs sl hok => exact inv_leave h hok
  | ofReady p q q' evs sl hok => exact inv_ready h hok
  | ofReset k q => exact inv_reset cfg k q
  | ofTimer t q hmem => exact inv_readyUpTimeout h

theorem inv_reachable {cfg : QueueConfig} {q : QueueSrv} (h : Reachable cfg q) :
    Inv cfg q := by
  induction h with
  | base k => exact inv_reset cfg k pristine
  | step _ hs ih => exact inv_step ih hs

/-! ## Characterizations of updateState used by the claims -/

theorem setState_slots (st : QueueState) (q : QueueSrv) :
    (setState st q).1.slots = q.slots ∨
    (setState st q).1.slots = q.slots.map cleanupSlot := by
  unfold setState
  by_cases h : st = q.state
  · rw [if_pos h]
    exact Or.inl rfl
  · rw [if_neg h]
    cases q.state <;> cases st <;> simp [onStateChange, cleanupQueue]

theorem updateState_slots (cfg : QueueConfig) (q : QueueSrv) :
    (updateState cfg q).1.slots = q.slots ∨
    (updateState cfg q).1.slots = q.slots.map cleanupSlot := by
  cases hq : q.state with
  | waiting =>
      rw [updateState_waiting hq]
      by_cases hpc : playerCount q = requiredPlayerCount cfg
      · rw [if_pos hpc]
        exact setState_slots _ q
      · rw [if_neg hpc]
        exact Or.inl rfl
  | ready =>
      rw [updateState_ready hq]
      by_cases hpc : playerCount q = 0
      · rw [if_pos hpc]
        exact setState_slots _ q
      · rw [if_neg hpc]
        by_cases hrc : readyPlayerCount q = requiredPlayerCount cfg
        · rw [if_pos hrc]
          exact setState_slots _ q
        · rw [if_neg hrc]
          exact Or.inl rfl
  | launching =>
      rw [updateState_launching hq]
      exact setState_slots _ q

theorem updateState_slots_of_occupied (cfg : QueueConfig) (q : QueueSrv)
    (hpc : playerCount q ≠ 0) : (updateState cfg q).1.slots = q.slots := by
  cases hq : q.state with
  | waiting =>
      rw [updateState_waiting hq]
      by_cases hc : playerCount q = requiredPlayerCount cfg
      · rw [if_pos hc,
          setState_eq_of_ne (by rw [hq]; exact fun hh => QueueState.noConfusion hh), hq]
        rfl
      · rw [if_neg hc]
  | ready =>
      rw [updateState_ready hq, if_neg hpc]
      by_cases hrc : readyPlayerCount q = requiredPlayerCount cfg
      · rw [if_pos hrc,
          setState_eq_of_ne (by rw [hq]; exact fun hh => QueueState.noConfusion hh), hq]
        rfl
      · rw [if_neg hrc]
  | launching =>
      rw [updateState_launching hq,
        setState_eq_of_ne (by rw [hq]; exact fun hh => QueueState.noConfusion hh), hq]
      rfl

/-- Calling `leave` on an absent player: the benign not-found result. -/
theorem leave_of_absent {cfg : QueueConfig} {p : String} {q : QueueSrv}
    (h : ∀ s ∈ q.slots, s.playerId ≠ some p) :
    leave cfg p q = .ok (q, [], none) := by
  unfold leave
  rw [List.find?_eq_none.mpr (fun s hs => by simpa using h s hs)]

/-! ## Concrete executions -/

/-- The two-slot test configuration (`configTest` of the source, with a
two-map pool). -/
def cfgTest : QueueConfig :=
  { teamCount := 2, classes := [{ name := "soldier", count := 1 }],
    readyUpTimeout := 10000, maps := ["cp_process_final", "cp_gullywash_final1"] }

/-- Whether an `Except` result is a success. -/
def isOkE {ε α : Type} : Except ε α → Bool
  | .ok _ => true
  | .error _ => false

theorem step_of_join_ok {cfg : QueueConfig} {pe ig : Bool} {sid : Nat} {p : String}
    {q : QueueSrv} (h : isOkE (join cfg pe ig sid p q) = true) :
    Step cfg q (runJoin cfg pe ig sid p q) := by
  unfold runJoin
  cases hj : join cfg pe ig sid p q with
  | ok r => exact Step.ofJoin pe ig sid p q r.1 r.2.1 r.2.2 hj
  | error e =>
      rw [hj] at h
      exact Bool.noConfusion h

theorem step_of_leave_ok {cfg : QueueConfig} {p : String} {q : QueueSrv}
    (h : isOkE (leave cfg p q) = true) :
    Step cfg q (runLeave cfg p q) := by
  unfold runLeave
  cases hj : leave cfg p q with
  | ok r => exact Step.ofLeave p q r.1 r.2.1 r.2.2 hj
  | error e =>
      rw [hj] at h
      exact Bool.noConfusion h

theorem step_of_ready_ok {cfg : QueueConfig} {p : String} {q : QueueSrv}
    (h : isOkE (ready cfg p q) = true) :
    Step cfg q (runReady cfg p q) := by
  unfold runReady
  cases hj : ready cfg p q with
  | ok r => exact Step.ofReady p q r.1 r.2.1 r.2.2 hj
  | error e =>
      rw [hj] at h
      exact Bool.noConfusion h

/-- Fresh service after the constructor reset. -/
def t0 : QueueSrv := (reset cfgTest 0 pristine).1

/-- p1 joins slot 0. -/
def t1 : QueueSrv := runJoin cfgTest true false 0 "p1" t0

/-- p2 joins slot 1: the queue becomes ready and a timer is scheduled. -/
def t2 : QueueSrv := runJoin cfgTest true false 1 "p2" t1

/-- p1 readies up. -/
def t3 : QueueSrv := runReady cfgTest "p1" t2

/-- p2 readies up: the queue launches. -/
def t4 : QueueSrv := runReady cfgTest "p2" t3

/-- p1 (unconfirmed) leaves the ready queue. -/
def t2L : QueueSrv := runLeave cfgTest "p1" t2

/-- p2 (unconfirmed) leaves the ready queue after p1 confirmed. -/
def t3L : QueueSrv := runLeave cfgTest "p2" t3

/-- Reset after the launch (the post-handoff reset). -/
def u5 : QueueSrv := (reset cfgTest 1 t4).1

/-- Second episode: p1 joins slot 0 again. -/
def u6 : QueueSrv := runJoin cfgTest true false 0 "p1" u5

/-- Second episode: p2 joins slot 1; ready again, second timer scheduled. -/
def u7 : QueueSrv := runJoin cfgTest true false 1 "p2" u6

/-- The stale first timer (handle 0) fires during the second episode. -/
def u8 : QueueSrv :=
  (readyUpTimeout cfgTest { u7 with pendingTimers := u7.pendingTimers.erase 0 }).1

theorem reach_t0 : Reachable cfgTest t0 := Reachable.base 0

theorem reach_t1 : Reachable cfgTest t1 :=
  reach_t0.step (step_of_join_ok (by decide))

theorem reach_t2 : Reachable cfgTest t2 :=
  reach_t1.step (step_of_join_ok (by decide))

theorem reach_t3 : Reachable cfgTest t3 :=
  reach_t2.step (step_of_ready_ok (by decide))

theorem reach_t4 : Reachable cfgTest t4 :=
  reach_t3.step (step_of_ready_ok (by decide))

theorem reach_t2L : Reachable cfgTest t2L :=
  reach_t2.step (step_of_leave_ok (by decide))

theorem reach_t3L : Reachable cfgTest t3L :=
  reach_t3.step (step_of_leave_ok (by decide))

theorem reach_u5 : Reachable cfgTest u5 :=
  reach_t4.step (Step.ofReset 1 t4)

theorem reach_u6 : Reachable cfgTest u6 :=
  reach_u5.step (step_of_join_ok (by decide))

theorem reach_u7 : Reachable cfgTest u7 :=
  reach_u6.step (step_of_join_ok (by decide))

/-! ## Claims -/

/-- C1 (amended): for every reachable state, if the lifecycle is
`launching` then every slot has a non-null occupant.  (In lifecycle
`ready` a slot may be vacant: a leave of an unconfirmed player during
`ready` vacates the slot while the lifecycle stays `ready`; see the
counterexample.) -/
theorem c1_launching_all_occupied {cfg : QueueConfig} {q : QueueSrv}
    (h : Reachable cfg q) (hl : q.state = QueueState.launching) :
    ∀ s ∈ q.slots, s.playerId.isSome = true :=
  fun s hs => ((inv_reachable h).launchAll hl s hs).1

/-- Witness for C1: slot 0 of the reachable launching state `t4` has a
non-null occupant. -/
theorem c1_launching_all_occupied_witness :
    ({ id := 0, gameClass := "soldier", playerId := some "p1", playerReady := true } :
      QueueSlot).playerId.isSome = true :=
  c1_launching_all_occupied reach_t4 (by decide)
    { id := 0, gameClass := "soldier", playerId := some "p1", playerReady := true }
    (by decide)

/-- C1 counterexample: after `join(0,p1); join(1,p2); leave(p1)` the
queue is reachable, its lifecycle is still `ready`, and slot 0 has a
null occupant — refuting the claim for the `ready` lifecycle. -/
theorem c1_counterexample :
    Reachable cfgTest t2L ∧ t2L.state = QueueState.ready ∧
      ¬(∀ s ∈ t2L.slots, s.playerId.isSome = true) :=
  ⟨reach_t2L, by decide, by decide⟩

/-- C2: an operation that throws a typed error leaves the service state
exactly as it was: validation precedes mutation in `join`, `leave` and
`ready`. -/
theorem c2_failed_ops_preserve_state :
    (∀ (cfg : QueueConfig) (pe ig : Bool) (sid : Nat) (p : String) (q : QueueSrv)
      (e : QueueError), join cfg pe ig sid p q = .error e →
        runJoin cfg pe ig sid p q = q) ∧
    (∀ (cfg : QueueConfig) (p : String) (q : QueueSrv) (e : QueueError),
      leave cfg p q = .error e → runLeave cfg p q = q) ∧
    (∀ (cfg : QueueConfig) (p : String) (q : QueueSrv) (e : QueueError),
      ready cfg p q = .error e → runReady cfg p q = q) := by
  refine ⟨?_, ?_, ?_⟩
  · intro cfg pe ig sid p q e h
    unfold runJoin
    rw [h]
  · intro cfg p q e h
    unfold runLeave
    rw [h]
  · intro cfg p q e h
    unfold runReady
    rw [h]

/-- Witness for C2: a failed `join` (no such slot), a failed `leave`
(cannot unready) and a failed `ready` (queue not ready) each leave the
concrete state untouched. -/
theorem c2_failed_ops_preserve_state_witness :
    runJoin cfgTest true false 5 "p9" t0 = t0 ∧
    runLeave cfgTest "p1" t3 = t3 ∧
    runReady cfgTest "p9" t0 = t0 :=
  ⟨c2_failed_ops_preserve_state.1 cfgTest true false 5 "p9" t0 QueueError.noSuchSlot (by decide),
   c2_failed_ops_preserve_state.2.1 cfgTest "p1" t3 QueueError.cannotUnready (by decide),
   c2_failed_ops_preserve_state.2.2 cfgTest "p9" t0 QueueError.queueNotReady (by decide)⟩

/-- C9: `leave` of an absent player returns the benign `null` result and
leaves the state unchanged; and after a successful `leave` from a
reachable state, a second `leave` for the same player is a no-op
returning `null`. -/
theorem c9_leave_idempotent :
    (∀ (cfg : QueueConfig) (p : String) (q : QueueSrv),
      (∀ s ∈ q.slots, s.playerId ≠ some p) → leave cfg p q = .ok (q, [], none)) ∧
    (∀ (cfg : QueueConfig) (p : String) (q q' : QueueSrv) (evs : List QueueEvent)
      (sl : QueueSlot), Reachable cfg q → leave cfg p q = .ok (q', evs, some sl) →
      leave cfg p q' = .ok (q', [], none)) := by
  constructor
  · intro cfg p q h
    exact leave_of_absent h
  · intro cfg p q q' evs sl hr hok
    rcases leave_ok_inv hok with ⟨_, _, hnone, _⟩ | ⟨slot, hfind, hguard, hosl, hq'⟩
    · exact absurd hnone (by simp)
    · have hinv := inv_reachable hr
      have hple : occCount p q.slots ≤ 1 := hinv.uniq p
      have hsl : occCount p (replaceFirst (fun s => s.playerId == some p)
          { slot with playerId := none } q.slots) = occCount p q.slots - 1 :=
        countP_replaceFirst_cond_sub (fun s : QueueSlot => s.playerId == some p)
          { slot with playerId := none } (by simp)
      have hzero : occCount p (replaceFirst (fun s => s.playerId == some p)
          { slot with playerId := none } q.slots) = 0 := by
        rw [hsl]
        omega
      subst hq'
      apply leave_of_absent
      intro s hs
      rcases updateState_slots cfg
          { q with slots := replaceFirst (fun s => s.playerId == some p)
                              { slot with playerId := none } q.slots } with hcase | hcase
      · rw [hcase] at hs
        have hs2 : s ∈ replaceFirst (fun s => s.playerId == some p)
            { slot with playerId := none } q.slots := hs
        have := List.countP_eq_zero.mp hzero s hs2
        simpa using this
      · rw [hcase] at hs
        have hs2 : s ∈ (replaceFirst (fun s => s.playerId == some p)
            { slot with playerId := none } q.slots).map cleanupSlot := hs
        rcases List.mem_map.mp hs2 with ⟨x, hx, rfl⟩
        have hx0 := List.countP_eq_zero.mp hzero x hx
        intro hcontra
        exact (by simpa using hx0 : x.playerId ≠ some p) (cleanupSlot_pid hcontra)

/-- Witness for C9: `leave` of an absent player on `t0` is a no-op, and
after p1 leaves from `t1` the second `leave` returns the null result on
the unchanged state. -/
theorem c9_leave_idempotent_witness :
    leave cfgTest "p9" t0 = .ok (t0, [], none) ∧
    leave cfgTest "p1" (runLeave cfgTest "p1" t1) =
      .ok (runLeave cfgTest "p1" t1, [], none) :=
  ⟨c9_leave_idempotent.1 cfgTest "p9" t0 (by decide),
   c9_leave_idempotent.2 cfgTest "p1" t1 (runLeave cfgTest "p1" t1)
     [QueueEvent.slotUpdate { id := 0, gameClass := "soldier", playerId := none,
                              playerReady := false }]
     { id := 0, gameClass := "soldier", playerId := none, playerReady := false }
     reach_t1 (by decide)⟩

/-- C10: joining the very slot one already occupies fails with
`SlotTaken` (the occupied-slot check fires before the vacate step) and
the state — including the slot and confirmed flag of the caller — is
unchanged. -/
theorem c10_join_own_slot {cfg : QueueConfig} {q : QueueSrv} {sid : Nat} {p : String}
    {slot : QueueSlot} (hfind : q.slots.find? (fun s => s.id == sid) = some slot)
    (hpid : slot.playerId = some p) :
    join cfg true false sid p q = .error QueueError.slotTaken ∧
    runJoin cfg true false sid p q = q := by
  have hj : join cfg true false sid p q = .error QueueError.slotTaken := by
    unfold join
    rw [if_neg (by simp), if_neg (by simp), hfind]
    simp [hpid]
  refine ⟨hj, ?_⟩
  unfold runJoin
  rw [hj]

/-- Witness for C10: p1, occupying slot 0 of `t2`, calls `join(0,p1)`. -/
theorem c10_join_own_slot_witness :
    join cfgTest true false 0 "p1" t2 = .error QueueError.slotTaken ∧
    runJoin cfgTest true false 0 "p1" t2 = t2 :=
  @c10_join_own_slot cfgTest t2 0 "p1"
    { id := 0, gameClass := "soldier", playerId := some "p1", playerReady := false }
    (by decide) (by decide)

/-- A `join` call whose target slot exists and is vacant succeeds. -/
theorem join_isOk {cfg : QueueConfig} {sid : Nat} {p : String} {q : QueueSrv}
    {slot : QueueSlot} (hfind : q.slots.find? (fun s => s.id == sid) = some slot)
    (hvac : slot.playerId = none) :
    isOkE (join cfg true false sid p q) = true := by
  unfold join
  rw [if_neg (by simp), if_neg (by simp), hfind]
  simp [hvac, isOkE]

/-- C3 (amended): when the lifecycle is `ready` and, after a mutating
operation, every slot is occupied and confirmed (equivalently the
confirmed count reaches the required player count), the transition
re-check moves the lifecycle to `launching`, clears the `timer` field
and emits the match handoff carrying the slot roster and the selected
map.  All occupied slots being confirmed is not sufficient while some
slot is vacant; see the counterexample. -/
theorem c3_all_confirmed_launches {cfg : QueueConfig} {q : QueueSrv}
    (hst : q.state = QueueState.ready)
    (hlen : q.slots.length = requiredPlayerCount cfg)
    (hne : q.slots ≠ [])
    (hall : ∀ s ∈ q.slots, s.playerId.isSome = true ∧ s.playerReady = true) :
    (updateState cfg q).1.state = QueueState.launching ∧
    (updateState cfg q).1.timer = none ∧
    (updateState cfg q).2 = [QueueEvent.launchGame q.slots q.map,
                            QueueEvent.stateUpdate QueueState.launching] := by
  have hpc : playerCount q ≠ 0 := by
    rw [playerCount_eq_countP]
    rcases List.exists_mem_of_ne_nil q.slots hne with ⟨s, hs⟩
    have hpos : 0 < q.slots.countP (fun s => s.playerId.isSome) :=
      List.countP_pos_iff.mpr ⟨s, hs, (hall s hs).1⟩
    omega
  have hrc : readyPlayerCount q = requiredPlayerCount cfg := by
    rw [readyPlayerCount_eq_countP, List.countP_eq_length.mpr (fun s hs => (hall s hs).2),
      hlen]
  rw [updateState_ready hst, if_neg hpc, if_pos hrc,
    setState_eq_of_ne (by rw [hst]; exact fun hh => QueueState.noConfusion hh), hst]
  exact ⟨rfl, rfl, rfl⟩

/-- A fully confirmed two-slot ready state. -/
def wAll : QueueSrv :=
  { slots := [{ id := 0, gameClass := "soldier", playerId := some "p1", playerReady := true },
              { id := 1, gameClass := "soldier", playerId := some "p2", playerReady := true }],
    state := QueueState.ready, map := some "cp_process_final", timer := some 0,
    nextTimerId := 1, pendingTimers := [0] }

/-- Witness for C3: the fully confirmed ready state `wAll` launches. -/
theorem c3_all_confirmed_launches_witness :
    (updateState cfgTest wAll).1.state = QueueState.launching ∧
    (updateState cfgTest wAll).1.timer = none ∧
    (updateState cfgTest wAll).2 = [QueueEvent.launchGame wAll.slots wAll.map,
                                    QueueEvent.stateUpdate QueueState.launching] :=
  c3_all_confirmed_launches (by decide) (by decide) (by decide) (by decide)

/-- Recognizes the match-handoff effect. -/
def isLaunchEv : QueueEvent → Bool
  | .launchGame _ _ => true
  | _ => false

/-- The events a `leave` call emits (empty on a thrown error). -/
def leaveEvents (cfg : QueueConfig) (p : String) (q : QueueSrv) : List QueueEvent :=
  match leave cfg p q with
  | .ok r => r.2.1
  | .error _ => []

/-- C3 counterexample: after the mutating `leave(p2)` on `t3` every
occupied slot is confirmed, yet the lifecycle stays `ready`, the timer
field is untouched and the call emitted no match handoff. -/
theorem c3_counterexample :
    Reachable cfgTest t3L ∧ t3L.state = QueueState.ready ∧
    (∀ s ∈ t3L.slots, s.playerId.isSome = true → s.playerReady = true) ∧
    t3L.state ≠ QueueState.launching ∧ t3L.timer = some 0 ∧
    (∀ e ∈ leaveEvents cfgTest "p2" t3, isLaunchEv e = false) :=
  ⟨reach_t3L, by decide, by decide, by decide, by decide, by decide⟩

/-- C6: when the ready-up timer fires in lifecycle `ready` with not all
slots confirmed, the lifecycle returns to `waiting` and each slot is
rewritten by the cleanup policy: an unconfirmed occupant is evicted, a
confirmed occupant is kept with the confirmed flag reset. -/
theorem c6_timeout_policy {cfg : QueueConfig} {q : QueueSrv}
    (hst : q.state = QueueState.ready)
    (hlen : q.slots.length = requiredPlayerCount cfg)
    (hnotall : ¬∀ s ∈ q.slots, s.playerReady = true) :
    (readyUpTimeout cfg q).1.state = QueueState.waiting ∧
    (readyUpTimeout cfg q).1.slots = q.slots.map (fun s =>
      if s.playerReady = true then { s with playerReady := false }
      else { s with playerId := none }) := by
  have hrc : readyPlayerCount q ≠ requiredPlayerCount cfg := by
    rw [readyPlayerCount_eq_countP]
    intro hc
    exact hnotall (List.countP_eq_length.mp (by rw [hc, hlen]))
  unfold readyUpTimeout
  rw [if_neg hrc, setState_eq_of_ne (by rw [hst]; exact fun hh => QueueState.noConfusion hh),
    hst]
  refine ⟨rfl, ?_⟩
  show q.slots.map cleanupSlot = _
  apply List.map_congr_left
  intro s _
  rfl

/-- Witness for C6: the timer fires on the unconfirmed ready state `t2`;
both occupants are evicted. -/
theorem c6_timeout_policy_witness :
    (readyUpTimeout cfgTest t2).1.state = QueueState.waiting ∧
    (readyUpTimeout cfgTest t2).1.slots = t2.slots.map (fun s =>
      if s.playerReady = true then { s with playerReady := false }
      else { s with playerId := none }) :=
  c6_timeout_policy (by decide) (by decide) (by decide)

/-- A one-map configuration. -/
def cfg1 : QueueConfig :=
  { teamCount := 2, classes := [{ name := "soldier", count := 1 }],
    readyUpTimeout := 0, maps := ["cp_badlands"] }

/-- C7 evaluation at the failing input: with a singleton map pool the
first reset picks the only map; the second reset excludes the previous
map unconditionally, indexes an empty pool, and stores `undefined`
(`none`), which is not a member of the configured map set. -/
theorem c7_singleton_pool_breaks :
    ((reset cfg1 0 pristine).1).map = some "cp_badlands" ∧
    ((reset cfg1 0 (reset cfg1 0 pristine).1).1).map = none ∧
    ¬∃ m ∈ cfg1.maps, ((reset cfg1 0 (reset cfg1 0 pristine).1).1).map = some m :=
  ⟨by decide, by decide, by decide⟩

/-- C8: the slot layout builder emits, iterating the classes in
configured order, `count * teamCount` slots per class carrying that
class name, with sequential ids starting at 0, so the total count is
`teamCount * Σ count` (the required player count) and the ids form the
contiguous range `[0, N)`. -/
theorem c8_slot_layout (cfg : QueueConfig)
    (h1 : cfg.classes ≠ []) (h2 : ∀ c ∈ cfg.classes, 1 ≤ c.count)
    (h3 : 1 ≤ cfg.teamCount) :
    (buildSlotsAux cfg.teamCount cfg.classes 0).length =
      cfg.teamCount * (cfg.classes.map (fun c => c.count)).sum ∧
    (buildSlotsAux cfg.teamCount cfg.classes 0).length = requiredPlayerCount cfg ∧
    (buildSlotsAux cfg.teamCount cfg.classes 0).map (fun s => s.id) =
      List.range ((buildSlotsAux cfg.teamCount cfg.classes 0).length) ∧
    (buildSlotsAux cfg.teamCount cfg.classes 0).map (fun s => s.gameClass) =
      cfg.classes.bind (fun c => List.replicate (c.count * cfg.teamCount) c.name) ∧
    (∀ s ∈ buildSlotsAux cfg.teamCount cfg.classes 0,
      s.playerId = none ∧ s.playerReady = false) := by
  refine ⟨?_, ?_, ?_, buildSlotsAux_classes _ _ _, buildSlotsAux_flags _ _ _⟩
  · rw [buildSlotsAux_length, Nat.mul_comm]
  · rw [buildSlotsAux_length, requiredPlayerCount_eq]
  · rw [buildSlotsAux_ids, buildSlotsAux_length, List.range_eq_range']

/-- Witness for C8 at the test configuration. -/
theorem c8_slot_layout_witness :
    (buildSlotsAux cfgTest.teamCount cfgTest.classes 0).length =
      cfgTest.teamCount * (cfgTest.classes.map (fun c => c.count)).sum ∧
    (buildSlotsAux cfgTest.teamCount cfgTest.classes 0).length =
      requiredPlayerCount cfgTest ∧
    (buildSlotsAux cfgTest.teamCount cfgTest.classes 0).map (fun s => s.id) =
      List.range ((buildSlotsAux cfgTest.teamCount cfgTest.classes 0).length) ∧
    (buildSlotsAux cfgTest.teamCount cfgTest.classes 0).map (fun s => s.gameClass) =
      cfgTest.classes.bind (fun c => List.replicate (c.count * cfgTest.teamCount) c.name) ∧
    (∀ s ∈ buildSlotsAux cfgTest.teamCount cfgTest.classes 0,
      s.playerId = none ∧ s.playerReady = false) :=
  c8_slot_layout cfgTest (by decide) (by decide) (by decide)

/-- C5 evaluation: the ready-up timer of the first episode (handle 0) is
never cancelled — it is still pending in `u7` after the launch
transition deleted only the `timer` field and after the post-handoff
reset — and when it fires during the second ready episode, although the
active handle is 1, it evicts both players and flips the lifecycle to
`waiting`: a stale timer firing is not a no-op. -/
theorem c5_stale_timer_mutates :
    Reachable cfgTest u7 ∧ u7.state = QueueState.ready ∧
    u7.timer = some 1 ∧ u7.pendingTimers = [0, 1] ∧
    t4.state = QueueState.launching ∧ t4.timer = none ∧ t4.pendingTimers = [0] ∧
    Step cfgTest u7 u8 ∧
    u8.state = QueueState.waiting ∧ (∀ s ∈ u8.slots, s.playerId = none) ∧
    u8 ≠ { u7 with pendingTimers := [1] } :=
  ⟨reach_u7, by decide, by decide, by decide, by decide, by decide, by decide,
   Step.ofTimer 0 u7 (by decide), by decide, by decide, by decide⟩

/-- C4: in every reachable state a player occupies at most one slot; and
when a player occupying slot `a` joins a different vacant slot `b` of
the queue, the join succeeds, slot `a` is vacated with a slot-update
event emitted for it as part of the same call, and afterwards the player
occupies slot `b` and no slot with id `a` holds an occupant. -/
theorem c4_single_slot_per_player :
    (∀ (cfg : QueueConfig) (q : QueueSrv), Reachable cfg q →
      ∀ p : String, occCount p q.slots ≤ 1) ∧
    (∀ (cfg : QueueConfig) (q : QueueSrv) (p : String) (a b : Nat)
      (slotA slotB : QueueSlot), Reachable cfg q →
      q.slots.find? (fun s => s.id == b) = some slotB → slotB.playerId = none →
      slotA ∈ q.slots → slotA.id = a → slotA.playerId = some p → a ≠ b →
      ∃ q' evs ns, join cfg true false b p q = .ok (q', evs, ns) ∧
        QueueEvent.slotUpdate { slotA with playerId := none, playerReady := false } ∈ evs ∧
        ns.id = b ∧ ns.playerId = some p ∧ ns ∈ q'.slots ∧
        (∀ s ∈ q'.slots, s.id = a → s.playerId = none)) := by
  constructor
  · intro cfg q hr p
    exact (inv_reachable hr).uniq p
  · intro cfg q p a b slotA slotB hr hfindB hBvac hmemA hidA hpidA hab
    have hinv := inv_reachable hr
    have hBid : slotB.id = b := by simpa using List.find?_some hfindB
    have hok := @join_isOk cfg b p q slotB hfindB hBvac
    cases hj : join cfg true false b p q with
    | error e =>
        rw [hj] at hok
        exact absurd hok (by simp [isOkE])
    | ok r =>
        obtain ⟨q', evs, ns⟩ := r
        obtain ⟨slot, hfind, hvac, hns, hevs, hq'⟩ := join_ok_inv hj
        rw [hfindB] at hfind
        injection hfind with hfind
        subst hfind
        subst hq'
        have hfind1 : (q.slots.map (vacatePlayer p)).find? (fun s => s.id == b) =
            some (vacatePlayer p slotB) := by
          rw [find?_map_comm (fun x => by rw [vacatePlayer_id]) q.slots, hfindB]
          rfl
        have hmemns : ns ∈ replaceFirst (fun s => s.id == b) ns
            (q.slots.map (vacatePlayer p)) := newElem_mem_replaceFirst hfind1
        have hpc : playerCount
            { q with slots := replaceFirst (fun s => s.id == b) ns
                                (q.slots.map (vacatePlayer p)) } ≠ 0 := by
          rw [playerCount_eq_countP]
          show (replaceFirst (fun s => s.id == b) ns
            (q.slots.map (vacatePlayer p))).countP (fun s => s.playerId.isSome) ≠ 0
          have hpos : 0 < (replaceFirst (fun s => s.id == b) ns
              (q.slots.map (vacatePlayer p))).countP (fun s => s.playerId.isSome) :=
            List.countP_pos_iff.mpr ⟨ns, hmemns, by rw [hns]; rfl⟩
          omega
        have hqslots : ((updateState cfg
            { q with slots := replaceFirst (fun s => s.id == b) ns
                                (q.slots.map (vacatePlayer p)) }).1).slots =
            replaceFirst (fun s => s.id == b) ns (q.slots.map (vacatePlayer p)) :=
          updateState_slots_of_occupied cfg _ hpc
        refine ⟨(updateState cfg
          { q with slots := replaceFirst (fun s => s.id == b) ns
                              (q.slots.map (vacatePlayer p)) }).1,
          evs, ns, rfl, ?_, ?_, ?_, ?_, ?_⟩
        · rw [hevs]
          have hmf : slotA ∈ q.slots.filter (fun s => s.playerId == some p) :=
            List.mem_filter.mpr ⟨hmemA, by
              show (slotA.playerId == some p) = true
              simp [hpidA]⟩
          exact List.mem_append.mpr (Or.inl (List.mem_append.mpr (Or.inl
            (List.mem_map.mpr ⟨slotA, hmf, rfl⟩))))
        · rw [hns]
          exact hBid
        · rw [hns]
        · rw [hqslots]
          exact hmemns
        · intro s hs hsa
          rw [hqslots] at hs
          rcases mem_replaceFirst hs with rfl | hs1
          · exact absurd (by rw [← hsa, hns]; exact hBid) hab
          · rcases List.mem_map.mp hs1 with ⟨x, hx, rfl⟩
            have hxid : x.id = a := by
              rw [← vacatePlayer_id p x]
              exact hsa
            have hnodup : (q.slots.map (fun s => s.id)).Nodup := by
              rw [hinv.ids]
              exact List.nodup_range _
            have hxA : x = slotA :=
              List.inj_on_of_nodup_map hnodup hx hmemA (by rw [hxid, hidA])
            subst hxA
            unfold vacatePlayer
            rw [if_pos hpidA]

/-- Witness for C4: uniqueness at the reachable state `t2`, and p1 (in
slot 0 of `t1`) moving to the vacant slot 1. -/
theorem c4_single_slot_per_player_witness :
    occCount "p1" t2.slots ≤ 1 ∧
    (∃ q' evs ns, join cfgTest true false 1 "p1" t1 = .ok (q', evs, ns) ∧
      QueueEvent.slotUpdate { id := 0, gameClass := "soldier", playerId := none,
                              playerReady := false } ∈ evs ∧
      ns.id = 1 ∧ ns.playerId = some "p1" ∧ ns ∈ q'.slots ∧
      (∀ s ∈ q'.slots, s.id = 0 → s.playerId = none)) :=
  ⟨c4_single_slot_per_player.1 cfgTest t2 reach_t2 "p1",
   c4_single_slot_per_player.2 cfgTest t1 "p1" 0 1
     { id := 0, gameClass := "soldier", playerId := some "p1", playerReady := false }
     { id := 1, gameClass := "soldier", playerId := none, playerReady := false }
     reach_t1 (by decide) (by decide) (by decide) (by decide) (by decide) (by decide)⟩

end TF2
